import Mathlib

/-!
# Verification of the AXI-Lite write-channel-decoder testbench

Shallow embedding of `src/tb/tb_cocotb.py`, a cocotb testbench that drives an
AXI-Lite master BFM and a memory-backed AXI-Lite RAM slave through a write
channel decoder DUT.  The testbench itself is the only source file of the
repository; the BFM (`cocotbext.axi`) and the DUT's HDL are external, so
their behaviour is modelled from the specification where a claim needs it
(each such definition carries a doc comment starting `Modelled from the
spec:`).  Machine integers are embedded as `Nat`; bytes are `Nat` values
produced by an explicit `% 256`.
-/

set_option maxRecDepth 8000

namespace TbCocotb

/-- DUT parameter `SLAVE_REGION`.  Modelled from the spec: the DUT's HDL is
not in the repository; the spec's end-to-end scenario fixes the region size
at 64 bytes, and the test loop `range(4, SLAVE_REGION, BUS_WIDTH)` must
produce the spec's offsets 4, 8, ..., 60, which forces `SLAVE_REGION = 64`. -/
def SLAVE_REGION : Nat := 64

/-- DUT parameter `BUS_WIDTH`.  Modelled from the spec: bus width 4 bytes in
the end-to-end scenario. -/
def BUS_WIDTH : Nat := 4

/-- Python `int.to_bytes(w, "little")`: the `w`-byte little-endian encoding
of `n` (least significant byte first).  Embeds `x.to_bytes(dut.BUS_WIDTH.value,
"little")` from the test loops; every `x` used there fits in `w` bytes, so the
truncating `% 256` agrees with Python on all inputs the tests produce. -/
def toBytesLE : Nat → Nat → List Nat
  | 0, _ => []
  | w + 1, n => n % 256 :: toBytesLE w (n / 256)

/-- A byte-addressed memory store: a list of byte values, one per address. -/
abbrev Mem : Type := List Nat

/-- Modelled from the spec: the `AxiLiteRam` slave store is created
zero-filled ("zero-filled if never written") with a fixed size. -/
def mkRam (size : Nat) : Mem := List.replicate size 0

/-- Overwrite bytes of `m` starting at `addr` with the list `bs`
(the in-bounds part of a store update). -/
def writeBytes (m : Mem) (addr : Nat) (bs : List Nat) : Mem :=
  match bs with
  | [] => m
  | b :: rest => writeBytes (List.set m addr b) (addr + 1) rest

/-- Modelled from the spec: `AxiLiteRam` write — "bounds-checks
`addr..addr+len` against the configured region size; fails ... outside
bounds", otherwise stores the bytes. -/
def ramWrite (m : Mem) (addr : Nat) (bs : List Nat) : Option Mem :=
  if addr + bs.length ≤ m.length then some (writeBytes m addr bs) else none

/-- Modelled from the spec: `AxiLiteRam.read(addr, length)` — "returns the
stored bytes, zero-filled if never written, bounds-checked identically".
This is the test-only direct inspection (`axil_ram.read`), not a bus read. -/
def ramRead (m : Mem) (addr len : Nat) : Option (List Nat) :=
  if addr + len ≤ m.length then some ((m.drop addr).take len) else none

/-- Python `range(start, stop, step)` for a positive step: the ascending
arithmetic progression from `start`, strictly below `stop`. -/
def pyRange (start stop step : Nat) : List Nat :=
  if step = 0 then []
  else (List.range ((stop - start + (step - 1)) / step)).map (fun i => start + i * step)

/-- The offsets the write-test loops iterate over:
`range(4, dut.SLAVE_REGION.value, dut.BUS_WIDTH.value)`. -/
def writeOffsets : List Nat := pyRange 4 SLAVE_REGION BUS_WIDTH

/-- The slave store size instantiated by each write test
(line 84: `(dut.SLAVE_REGION.value+1)*dut.BUS_WIDTH.value`). -/
def instantiatedRamSize : Nat := (SLAVE_REGION + 1) * BUS_WIDTH

/-- Modelled from the spec: the DUT write channel decoder maps a bus address
seen on `s_axi` to the slave store offset relative to the base address
`SLAVE_ADDRESS` (the test writes to `SLAVE_ADDRESS + x` and reads the store
back at `x`). -/
def decodeAddr (slaveAddress a : Nat) : Nat := a - slaveAddress

/-- Modelled from the spec: a master bus write of `bs` at bus address `a`
that the protocol engine delivers to the slave store: the decoder maps the
address and the store commits the bytes. -/
def busWrite (slaveAddress : Nat) (m : Mem) (a : Nat) (bs : List Nat) : Option Mem :=
  ramWrite m (decodeAddr slaveAddress a) bs

/-- One iteration of the `increment_test_write` loop body: write the
little-endian encoding of `x` to bus address `SLAVE_ADDRESS + x`, then read
`BUS_WIDTH` bytes back from the store at offset `x`; the state carries the
store and the list of values read back so far. -/
def plainStep (slaveAddress : Nat) (acc : Option (Mem × List (List Nat))) (x : Nat) :
    Option (Mem × List (List Nat)) :=
  match acc with
  | none => none
  | some (m, reads) =>
    match busWrite slaveAddress m (slaveAddress + x) (toBytesLE BUS_WIDTH x) with
    | none => none
    | some m2 =>
      match ramRead m2 x BUS_WIDTH with
      | none => none
      | some d => some (m2, reads ++ [d])

/-- The whole `increment_test_write` loop: fold the loop body over the
offsets, starting from the freshly instantiated zero-filled store. -/
def runPlain (slaveAddress : Nat) : Option (Mem × List (List Nat)) :=
  writeOffsets.foldl (plainStep slaveAddress) (some (mkRam instantiatedRamSize, []))

/-- The read-back values of the `increment_test_write` loop. -/
def runReads (slaveAddress : Nat) : Option (List (List Nat)) :=
  (runPlain slaveAddress).map (fun p => p.2)

/-- The payloads the loop writes: the little-endian encoding of each offset. -/
def expectedReads : List (List Nat) := writeOffsets.map (toBytesLE BUS_WIDTH)

lemma busWrite_base (sa : Nat) (m : Mem) (x : Nat) (bs : List Nat) :
    busWrite sa m (sa + x) bs = ramWrite m x bs := by
  simp [busWrite, decodeAddr, Nat.add_sub_cancel_left]

lemma plainStep_sa (sa : Nat) : plainStep sa = plainStep 0 := by
  funext acc x
  cases acc with
  | none => rfl
  | some p =>
    cases p with
    | mk m reads => simp [plainStep, busWrite, decodeAddr, Nat.add_sub_cancel_left]

lemma runPlain_sa (sa : Nat) : runPlain sa = runPlain 0 := by
  unfold runPlain
  rw [plainStep_sa]

/-- One loop iteration viewed on the store alone, accumulating the store
state after each committed write (for frame reasoning over the whole
scenario). -/
def memTraceStep (slaveAddress : Nat) (acc : Option Mem × List Mem) (x : Nat) :
    Option Mem × List Mem :=
  match acc with
  | (none, tr) => (none, tr)
  | (some m, tr) =>
    match busWrite slaveAddress m (slaveAddress + x) (toBytesLE BUS_WIDTH x) with
    | none => (none, tr)
    | some m2 => (some m2, tr ++ [m2])

/-- Every store state the write-test loop passes through: the freshly
instantiated store followed by the store after each write. -/
def memTrace (slaveAddress : Nat) : List Mem :=
  (writeOffsets.foldl (memTraceStep slaveAddress)
    (some (mkRam instantiatedRamSize), [mkRam instantiatedRamSize])).2

lemma memTraceStep_sa (sa : Nat) : memTraceStep sa = memTraceStep 0 := by
  funext acc x
  cases acc with
  | mk o tr =>
    cases o with
    | none => rfl
    | some m => simp [memTraceStep, busWrite, decodeAddr, Nat.add_sub_cancel_left]

lemma memTrace_sa (sa : Nat) : memTrace sa = memTrace 0 := by
  unfold memTrace
  rw [memTraceStep_sa]

lemma runReads_eval (sa : Nat) :
    runReads sa = some (writeOffsets.map (toBytesLE BUS_WIDTH)) := by
  have h : runReads sa = runReads 0 := by
    unfold runReads
    rw [runPlain_sa]
  rw [h]
  decide

/-- **C1.** For every offset `x` produced by the write-test loop (from 4 up
to but excluding `SLAVE_REGION`, in steps of `BUS_WIDTH`), after writing the
`BUS_WIDTH`-byte little-endian encoding of `x` to bus address
`SLAVE_ADDRESS + x`, reading `BUS_WIDTH` bytes from the slave store at
offset `x` returns exactly that encoding: the list of read-back values of
the whole loop is exactly the list of encodings, for every base address. -/
theorem increment_test_write_roundtrip (slaveAddress : Nat) :
    runReads slaveAddress = some (writeOffsets.map (toBytesLE BUS_WIDTH)) :=
  runReads_eval slaveAddress

/-- Witness for C1 at the concrete base address 0. -/
theorem increment_test_write_roundtrip_witness :
    runReads 0 = some (writeOffsets.map (toBytesLE BUS_WIDTH)) :=
  increment_test_write_roundtrip 0

/-- Modelled from the spec: a stall (pause) generator "when true, forces
`ready` ... low for that cycle"; a handshake issued at cycle `t` is accepted
at the first cycle not stalled.  The fuel bounds the search (the generators
of the testbench are 256-cyclic, so a generator that is not constantly true
frees a cycle within any 256-cycle window); a constantly-stalled channel
yields `none` (the transaction never completes). -/
def firstFree (s : Nat → Bool) : Nat → Nat → Option Nat
  | _, 0 => none
  | t, fuel + 1 => if s t then firstFree s (t + 1) fuel else some t

/-- One iteration of the write loop under stall injection: the AW beat is
accepted at the first cycle its pause stream frees, the W beat at the first
free cycle after that; the committed write and the read-back are as in
`plainStep`, and the state additionally carries the current cycle count
(the completion latency). -/
def stallStep (slaveAddress : Nat) (bsAW bsW : Nat → Bool)
    (acc : Option (Mem × List (List Nat) × Nat)) (x : Nat) :
    Option (Mem × List (List Nat) × Nat) :=
  match acc with
  | none => none
  | some (m, reads, t) =>
    match firstFree bsAW t 256 with
    | none => none
    | some tAW =>
      match firstFree bsW (tAW + 1) 256 with
      | none => none
      | some tW =>
        match busWrite slaveAddress m (slaveAddress + x) (toBytesLE BUS_WIDTH x) with
        | none => none
        | some m2 =>
          match ramRead m2 x BUS_WIDTH with
          | none => none
          | some d => some (m2, reads ++ [d], tW + 2)

/-- The write-test loop with pause generators attached to the slave-side AW
and W channels (`fun _ => false` models a channel with no generator
attached: never stalled). -/
def runStalled (slaveAddress : Nat) (bsAW bsW : Nat → Bool) :
    Option (Mem × List (List Nat) × Nat) :=
  writeOffsets.foldl (stallStep slaveAddress bsAW bsW) (some (mkRam instantiatedRamSize, [], 0))

lemma foldl_stallStep_none (sa : Nat) (bsAW bsW : Nat → Bool) :
    ∀ offs : List Nat, offs.foldl (stallStep sa bsAW bsW) none = none := by
  intro offs
  induction offs with
  | nil => rfl
  | cons x xs ih => simpa [List.foldl, stallStep] using ih

/-- The stalled run refines the plain run: whenever the stalled fold
completes, its store and read-back components agree with the plain fold
from the same store and read list — the stall streams only shape the
latency component. -/
lemma stall_refines_plain (sa : Nat) (bsAW bsW : Nat → Bool) :
    ∀ (offs : List Nat) (m : Mem) (reads : List (List Nat)) (t : Nat)
      (res : Mem × List (List Nat) × Nat),
      offs.foldl (stallStep sa bsAW bsW) (some (m, reads, t)) = some res →
      offs.foldl (plainStep sa) (some (m, reads)) = some (res.1, res.2.1) := by
  intro offs
  induction offs with
  | nil =>
    intro m reads t res h
    simp only [List.foldl] at h ⊢
    cases h
    rfl
  | cons x xs ih =>
    intro m reads t res h
    simp only [List.foldl] at h ⊢
    cases hAW : firstFree bsAW t 256 with
    | none =>
      simp only [stallStep, hAW, foldl_stallStep_none] at h
      exact Option.noConfusion h
    | some tAW =>
      cases hW : firstFree bsW (tAW + 1) 256 with
      | none =>
        simp only [stallStep, hAW, hW, foldl_stallStep_none] at h
        exact Option.noConfusion h
      | some tW =>
        cases hWr : busWrite sa m (sa + x) (toBytesLE BUS_WIDTH x) with
        | none =>
          simp only [stallStep, hAW, hW, hWr, foldl_stallStep_none] at h
          exact Option.noConfusion h
        | some m2 =>
          cases hRd : ramRead m2 x BUS_WIDTH with
          | none =>
            simp only [stallStep, hAW, hW, hWr, hRd, foldl_stallStep_none] at h
            exact Option.noConfusion h
          | some d =>
            simp only [stallStep, hAW, hW, hWr, hRd] at h
            simp only [plainStep, hWr, hRd]
            exact ih m2 (reads ++ [d]) (tW + 2) res h

/-- **C2.** For every pair of stall-generator streams attached to the
slave-side AW and W channels, if the stalled run completes then its store
and read-back values are exactly those of the run with no stall generator
attached (`runPlain`), and every value read back equals the encoding that
was written; only the latency component may differ. -/
theorem stall_invariance (slaveAddress : Nat) (bsAW bsW : Nat → Bool)
    (h : (runStalled slaveAddress bsAW bsW).isSome = true) :
    (runStalled slaveAddress bsAW bsW).map (fun o => (o.1, o.2.1)) = runPlain slaveAddress ∧
      (runStalled slaveAddress bsAW bsW).map (fun o => o.2.1) =
        some (writeOffsets.map (toBytesLE BUS_WIDTH)) := by
  obtain ⟨res, hres⟩ := Option.isSome_iff_exists.mp h
  have hplain : runPlain slaveAddress = some (res.1, res.2.1) :=
    stall_refines_plain slaveAddress bsAW bsW writeOffsets
      (mkRam instantiatedRamSize) [] 0 res hres
  have hreads : (runPlain slaveAddress).map (fun p => p.2) =
      some (writeOffsets.map (toBytesLE BUS_WIDTH)) := runReads_eval slaveAddress
  constructor
  · rw [hres, hplain]
    rfl
  · rw [hres]
    rw [hplain] at hreads
    simpa using hreads

/-- Witness for C2: with concrete periodic stall streams on both channels
the stalled run completes, and its read-back values equal the written
encodings. -/
theorem stall_invariance_witness :
    (runStalled 0 (fun n => n % 2 == 0) (fun n => n % 3 == 0)).map (fun o => o.2.1) =
      some (writeOffsets.map (toBytesLE BUS_WIDTH)) :=
  (stall_invariance 0 (fun n => n % 2 == 0) (fun n => n % 3 == 0) (by decide)).2

/-- **C9 counterexample.** The slave store instantiated by the write tests
(line 84 of the testbench: `(SLAVE_REGION+1)*BUS_WIDTH` bytes) is NOT
bounded to the configured region size of 64 bytes. -/
theorem ram_size_not_64 : ¬ (mkRam instantiatedRamSize).length = 64 := by
  decide

/-- **C9 amended.** The slave store instantiated by each write test is
bounded to `(SLAVE_REGION + 1) * BUS_WIDTH = 260` bytes — one bus word more
than `SLAVE_REGION` words — not to the 64-byte region size. -/
theorem ram_size_amended :
    (mkRam instantiatedRamSize).length = (SLAVE_REGION + 1) * BUS_WIDTH ∧
      (SLAVE_REGION + 1) * BUS_WIDTH = 260 := by
  constructor
  · decide
  · decide

/-- **C10.** No transaction of the write-test loop targets byte offsets `0`
through `BUS_WIDTH - 1` of the slave region (every offset is at least
`BUS_WIDTH = 4`), so the first bus word of the slave store keeps its initial
zero-filled value through every state of the entire scenario. -/
theorem first_word_untouched (slaveAddress : Nat) :
    (∀ x ∈ writeOffsets, BUS_WIDTH ≤ x) ∧
      ∀ m ∈ memTrace slaveAddress, m.take BUS_WIDTH = List.replicate BUS_WIDTH 0 := by
  rw [memTrace_sa]
  constructor
  · decide
  · decide

/-- Witness for C10 at concrete inputs: offset 4 is in the loop and at
least `BUS_WIDTH`, and the freshly instantiated store (the first state of
the trace) has a zero first word. -/
theorem first_word_untouched_witness :
    BUS_WIDTH ≤ 4 ∧
      (mkRam instantiatedRamSize).take BUS_WIDTH = List.replicate BUS_WIDTH 0 := by
  constructor
  · exact (first_word_untouched 0).1 4 (by decide)
  · exact (first_word_untouched 0).2 (mkRam instantiatedRamSize) (by decide)

/-- One step of `itertools.cycle`: yield the head of the remaining list, or
restart from the saved original list when the remaining list is exhausted. -/
def cycleStep (orig rem : List Bool) : Bool × List Bool :=
  match rem with
  | [] =>
    match orig with
    | [] => (false, [])
    | b :: bs => (b, bs)
  | b :: bs => (b, bs)

/-- The element produced by the `i`-th `next()` call on an `itertools.cycle`
iterator whose saved list is `orig` and whose remaining elements are `rem`. -/
def cycleNth (orig : List Bool) : Nat → List Bool → Bool
  | 0, rem => (cycleStep orig rem).1
  | i + 1, rem => cycleNth orig i (cycleStep orig rem).2

/-- `random_bool()`: the testbench builds a list of 256 random bits and
returns `itertools.cycle` of it.  The randomness is an explicit input:
`bits` is the list generated at construction; the result is the boolean at
each consumption index. -/
def randomBoolStream (bits : List Bool) (i : Nat) : Bool := cycleNth bits i bits

lemma cycleStep_nil (orig : List Bool) : cycleStep orig [] = cycleStep orig orig := by
  cases orig <;> rfl

lemma cycleNth_nil (orig : List Bool) (j : Nat) :
    cycleNth orig j [] = cycleNth orig j orig := by
  cases j with
  | zero => simp only [cycleNth, cycleStep_nil]
  | succ i => simp only [cycleNth, cycleStep_nil]

lemma cycleNth_lt (orig : List Bool) :
    ∀ (rem : List Bool) (i : Nat), i < rem.length →
      cycleNth orig i rem = rem.getD i false := by
  intro rem
  induction rem with
  | nil => intro i h; exact absurd h (by simp)
  | cons b bs ih =>
    intro i h
    cases i with
    | zero => rfl
    | succ j =>
      have hj : j < bs.length := by simpa using Nat.lt_of_succ_lt_succ h
      simpa [cycleNth, cycleStep] using ih j hj

lemma cycleNth_wrap (orig : List Bool) :
    ∀ (rem : List Bool) (j : Nat),
      cycleNth orig (rem.length + j) rem = cycleNth orig j orig := by
  intro rem
  induction rem with
  | nil => intro j; simpa using cycleNth_nil orig j
  | cons b bs ih =>
    intro j
    have harith : (b :: bs).length + j = (bs.length + j) + 1 := by
      simp [List.length_cons]
      omega
    rw [harith]
    simpa [cycleNth, cycleStep] using ih j

lemma cycleNth_mod (orig : List Bool) (hne : orig ≠ []) :
    ∀ i : Nat, cycleNth orig i orig = orig.getD (i % orig.length) false := by
  have hlen : 0 < orig.length := List.length_pos.mpr hne
  intro i
  induction i using Nat.strong_induction_on with
  | _ i ih =>
    by_cases hlt : i < orig.length
    · rw [Nat.mod_eq_of_lt hlt]
      exact cycleNth_lt orig orig i hlt
    · push_neg at hlt
      have hsplit : i = orig.length + (i - orig.length) := by omega
      have key : cycleNth orig i orig = cycleNth orig (i - orig.length) orig := by
        conv_lhs => rw [hsplit]
        exact cycleNth_wrap orig orig (i - orig.length)
      rw [key, ih (i - orig.length) (by omega), Nat.mod_eq_sub_mod hlt]

/-- **C7.** `random_bool` yields an infinite cyclic boolean sequence of
period 256: the element at every index `i` is the element at index
`i % 256` of the 256 booleans generated at construction, so consuming the
stream at position `i` and at position `i % 256` gives the same boolean. -/
theorem random_bool_cyclic (bits : List Bool) (h : bits.length = 256) (i : Nat) :
    randomBoolStream bits i = bits.getD (i % 256) false ∧
      randomBoolStream bits i = randomBoolStream bits (i % 256) := by
  have hne : bits ≠ [] := by
    intro hnil
    rw [hnil] at h
    simp at h
  have h1 : randomBoolStream bits i = bits.getD (i % 256) false := by
    have hc := cycleNth_mod bits hne i
    rw [h] at hc
    exact hc
  refine ⟨h1, ?_⟩
  have h2 : randomBoolStream bits (i % 256) = bits.getD ((i % 256) % 256) false := by
    have hc := cycleNth_mod bits hne (i % 256)
    rw [h] at hc
    exact hc
  have hmod : (i % 256) % 256 = i % 256 :=
    Nat.mod_eq_of_lt (Nat.mod_lt _ (by norm_num))
  rw [h1, h2, hmod]

/-- Witness for C7: a concrete 256-element bit list, consumed at index 300,
yields the bit at index 300 % 256 = 44. -/
theorem random_bool_cyclic_witness :
    randomBoolStream (List.replicate 100 true ++ List.replicate 156 false) 300
      = randomBoolStream (List.replicate 100 true ++ List.replicate 156 false) (300 % 256) :=
  (random_bool_cyclic (List.replicate 100 true ++ List.replicate 156 false)
    (by decide) 300).2

/-- `reset_dut`: the value driven on `arstn` as a function of simulation
time in nanoseconds — drive 0 at time 0, wait 200 ns, then drive 1. -/
def reset_dut_arstn (t : Nat) : Nat := if t < 200 then 0 else 1

/-- **C8.** The reset driver produces an active-low reset pulse: `arstn` is
driven to 0 at time 0, is never 1 during the 200 ns hold, and reads 1 from
200 ns on (released). -/
theorem reset_dut_pulse :
    reset_dut_arstn 0 = 0 ∧
      (∀ t, t < 200 → reset_dut_arstn t ≠ 1) ∧
      ∀ t, 200 ≤ t → reset_dut_arstn t = 1 := by
  refine ⟨rfl, ?_, ?_⟩
  · intro t ht
    simp [reset_dut_arstn, ht]
  · intro t ht
    simp [reset_dut_arstn, Nat.not_lt.mpr ht]

/-- Witness for C8: during the hold (at 100 ns) `arstn` is not 1, and at
release time (200 ns) it is 1. -/
theorem reset_dut_pulse_witness :
    reset_dut_arstn 100 ≠ 1 ∧ reset_dut_arstn 200 = 1 :=
  ⟨reset_dut_pulse.2.1 100 (by decide), reset_dut_pulse.2.2 200 (by decide)⟩

/-- Three-valued signal level.  Modelled from the spec: "represent it as a
three-valued logic type \x7b0, 1, UNDRIVEN\x7d wherever bus signals are
modeled"; `hiZ` is the undriven/high-impedance value the tests compare
against `Logic("z")`. -/
inductive Logic3 where
  | zero
  | one
  | hiZ
deriving DecidableEq

/-- Boolean drive level as a three-valued signal. -/
def toLevel (b : Bool) : Logic3 :=
  if b then Logic3.one else Logic3.zero

/-- The DUT's master-facing ready outputs.  Modelled from the spec: the
DUT's HDL is not in the repository; per the spec, the master-facing `ready`
outputs of the `s_axi` write channels (AW and W) are the observable state. -/
structure DutState where
  awready : Logic3
  wready : Logic3
deriving DecidableEq

/-- Modelled from the spec: the post-construction state of the DUT is
undriven on every master-facing ready output. -/
def initDut : DutState :=
  { awready := Logic3.hiZ, wready := Logic3.hiZ }

/-- Modelled from the spec: one rising clock edge of the DUT.  "While reset
is asserted, every master-facing ready output ... is forced to an
undriven/high-impedance value rather than 0/1"; out of reset the outputs
are driven to boolean levels produced by the decoder logic (abstracted here
as the inputs `drvAW`, `drvW`). -/
def dutStep (arstn drvAW drvW : Bool) (_s : DutState) : DutState :=
  if arstn then { awready := toLevel drvAW, wready := toLevel drvW }
  else { awready := Logic3.hiZ, wready := Logic3.hiZ }

/-- The DUT state after `n` rising clock edges, given the sampled reset and
drive traces. -/
def dutRun (arstn drvAW drvW : Nat → Bool) : Nat → DutState
  | 0 => initDut
  | n + 1 => dutStep (arstn n) (drvAW n) (drvW n) (dutRun arstn drvAW drvW n)

/-- **C3.** While `arstn` is held asserted (low) with the clock running —
every edge up to the observation samples `arstn = 0` — each master-facing
ready output of the DUT reads high-impedance: neither 0 nor 1, so no
spurious acceptance can occur during reset. -/
theorem in_reset_ready_undriven (arstn drvAW drvW : Nat → Bool) (n : Nat)
    (h : ∀ k, k < n → arstn k = false) :
    (dutRun arstn drvAW drvW n).awready = Logic3.hiZ ∧
      (dutRun arstn drvAW drvW n).wready = Logic3.hiZ ∧
      (dutRun arstn drvAW drvW n).awready ≠ Logic3.zero ∧
      (dutRun arstn drvAW drvW n).awready ≠ Logic3.one := by
  have hz : (dutRun arstn drvAW drvW n).awready = Logic3.hiZ ∧
      (dutRun arstn drvAW drvW n).wready = Logic3.hiZ := by
    induction n with
    | zero => exact ⟨rfl, rfl⟩
    | succ m ihm =>
      have harst : arstn m = false := h m (Nat.lt_succ_self m)
      have _ := ihm (fun k hk => h k (Nat.lt_succ_of_lt hk))
      simp [dutRun, dutStep, harst]
  refine ⟨hz.1, hz.2, ?_, ?_⟩
  · rw [hz.1]
    decide
  · rw [hz.1]
    decide

/-- Witness for C3: fifty clock edges with reset held low leave both ready
outputs at high-impedance. -/
theorem in_reset_ready_undriven_witness :
    (dutRun (fun _ => false) (fun _ => true) (fun _ => true) 50).awready = Logic3.hiZ ∧
      (dutRun (fun _ => false) (fun _ => true) (fun _ => true) 50).wready = Logic3.hiZ ∧
      (dutRun (fun _ => false) (fun _ => true) (fun _ => true) 50).awready ≠ Logic3.zero ∧
      (dutRun (fun _ => false) (fun _ => true) (fun _ => true) 50).awready ≠ Logic3.one :=
  in_reset_ready_undriven (fun _ => false) (fun _ => true) (fun _ => true) 50
    (fun _ _ => rfl)

/-- The DUT state observed at wall-clock time `t` when the state advances
only on clock edges: `edges t` counts the rising edges seen by time `t`. -/
def observeDut (arstn drvAW drvW : Nat → Bool) (edges : Nat → Nat) (t : Nat) : DutState :=
  dutRun arstn drvAW drvW (edges t)

/-- **C4.** If the clock is never started (no edge ever occurs) and reset is
held asserted, the DUT remains in its post-construction undriven state at
every observation time: its master-facing ready output still reads
high-impedance, with no spurious transitions. -/
theorem no_clock_stays_undriven (arstn drvAW drvW : Nat → Bool) (edges : Nat → Nat)
    (h : ∀ t, edges t = 0) (t : Nat) :
    observeDut arstn drvAW drvW edges t = initDut ∧
      (observeDut arstn drvAW drvW edges t).awready = Logic3.hiZ ∧
      (observeDut arstn drvAW drvW edges t).awready ≠ Logic3.zero ∧
      (observeDut arstn drvAW drvW edges t).awready ≠ Logic3.one := by
  have hobs : observeDut arstn drvAW drvW edges t = initDut := by
    rw [observeDut, h t]
    rfl
  refine ⟨hobs, ?_, ?_, ?_⟩ <;> rw [hobs] <;> decide

/-- Witness for C4: with zero clock edges forever, observing at time 1000
still finds the post-construction undriven state. -/
theorem no_clock_stays_undriven_witness :
    observeDut (fun _ => false) (fun _ => true) (fun _ => true) (fun _ => 0) 1000 = initDut ∧
      (observeDut (fun _ => false) (fun _ => true) (fun _ => true) (fun _ => 0) 1000).awready
        = Logic3.hiZ ∧
      (observeDut (fun _ => false) (fun _ => true) (fun _ => true) (fun _ => 0) 1000).awready
        ≠ Logic3.zero ∧
      (observeDut (fun _ => false) (fun _ => true) (fun _ => true) (fun _ => 0) 1000).awready
        ≠ Logic3.one :=
  no_clock_stays_undriven (fun _ => false) (fun _ => true) (fun _ => true) (fun _ => 0)
    (fun _ => rfl) 1000

/-- Modelled from the spec: the protocol engine's per-channel-pair state
machine "IDLE → REQUEST_SENT (valid asserted, ready not yet seen) →
REQUEST_ACCEPTED (ready sampled high) → RESPONSE_PENDING → DONE". -/
inductive MState where
  | idle
  | reqSent
  | reqAccepted
  | respPending
  | done
deriving DecidableEq

/-- Modelled from the spec: one clock edge of the master's write channel
pair: a sent request advances when `ready` is sampled high; the response
state advances only when `bvalid` is high; `idle` and `done` are stable. -/
def masterStep (ready bvalid : Bool) : MState → MState
  | MState.idle => MState.idle
  | MState.reqSent => if ready then MState.reqAccepted else MState.reqSent
  | MState.reqAccepted => MState.respPending
  | MState.respPending => if bvalid then MState.done else MState.respPending
  | MState.done => MState.done

/-- Modelled from the spec: the master's `s_axi_wvalid` line — "a channel's
`valid` must remain asserted ... from the cycle it is first raised until the
cycle `ready` is sampled high"; it is high exactly while the request is sent
but not yet accepted. -/
def wvalidOf : MState → Bool
  | MState.reqSent => true
  | _ => false

/-- The withheld-response scenario of `increment_test_timeout_no_answer`:
`init_write` has issued the request (state `reqSent`) and `m_axi_bvalid` is
forced low for the whole run, so only the `ready` trace `r` drives
progress; `masterRunNoB r n` is the channel state `n` edges later. -/
def masterRunNoB (r : Nat → Bool) : Nat → MState
  | 0 => MState.reqSent
  | n + 1 => masterStep (r n) false (masterRunNoB r n)

lemma masterRunNoB_not_done_idle (r : Nat → Bool) :
    ∀ n, masterRunNoB r n ≠ MState.done ∧ masterRunNoB r n ≠ MState.idle := by
  intro n
  induction n with
  | zero => constructor <;> simp [masterRunNoB]
  | succ m ihm =>
    cases hs : masterRunNoB r m with
    | idle => exact absurd hs ihm.2
    | reqSent =>
      constructor <;> simp [masterRunNoB, hs, masterStep] <;> split <;> simp
    | reqAccepted =>
      constructor <;> simp [masterRunNoB, hs, masterStep]
    | respPending =>
      constructor <;> simp [masterRunNoB, hs, masterStep]
    | done => exact absurd hs ihm.1

lemma masterRunNoB_not_reqSent (r : Nat → Bool) :
    ∀ n k, k < n → r k = true → masterRunNoB r n ≠ MState.reqSent := by
  intro n
  induction n with
  | zero => intro k hk; exact absurd hk (Nat.not_lt_zero k)
  | succ m ihm =>
    intro k hk hr
    have hni : masterRunNoB r m ≠ MState.idle := (masterRunNoB_not_done_idle r m).2
    by_cases hkm : k < m
    · have hs := ihm k hkm hr
      cases hsm : masterRunNoB r m with
      | idle => exact absurd hsm hni
      | reqSent => exact absurd hsm hs
      | reqAccepted => simp [masterRunNoB, hsm, masterStep]
      | respPending => simp [masterRunNoB, hsm, masterStep]
      | done => simp [masterRunNoB, hsm, masterStep]
    · have hkeq : k = m := by omega
      subst hkeq
      cases hsm : masterRunNoB r k with
      | idle => exact absurd hsm hni
      | reqSent => simp [masterRunNoB, hsm, masterStep, hr]
      | reqAccepted => simp [masterRunNoB, hsm, masterStep]
      | respPending => simp [masterRunNoB, hsm, masterStep]
      | done => simp [masterRunNoB, hsm, masterStep]

/-- **C5.** In the withheld-response scenario (`bvalid` forced low after
`init_write` issues the request), once the DUT has sampled the request
`ready` at some earlier edge — which the falling edge of `connected`
signals before the checkpoint one cycle after reset release — the master's
`s_axi_wvalid` reads 0, and the channel is parked (never `done`): the
master abandoned the stalled request rather than hanging with valid held
high. -/
theorem timeout_no_answer_wvalid_low (r : Nat → Bool) (n : Nat)
    (h : ∃ k, k < n ∧ r k = true) :
    wvalidOf (masterRunNoB r n) = false ∧ masterRunNoB r n ≠ MState.done := by
  obtain ⟨k, hk, hr⟩ := h
  have hns := masterRunNoB_not_reqSent r n k hk hr
  constructor
  · cases hsn : masterRunNoB r n with
    | idle => rfl
    | reqSent => exact absurd hsn hns
    | reqAccepted => rfl
    | respPending => rfl
    | done => rfl
  · exact (masterRunNoB_not_done_idle r n).1

/-- Witness for C5: ready sampled high at edge 0; three edges later the
write-valid line is low and the transaction never completed. -/
theorem timeout_no_answer_wvalid_low_witness :
    wvalidOf (masterRunNoB (fun k => k == 0) 3) = false ∧
      masterRunNoB (fun k => k == 0) 3 ≠ MState.done :=
  timeout_no_answer_wvalid_low (fun k => k == 0) 3 ⟨0, by decide, rfl⟩

/-- The AW channel of the master BFM: its handshake state together with the
pending address/payload it is driving.  Modelled from the spec: a channel
"holds a boolean `valid`, boolean `ready`, and channel-specific payload". -/
structure AWChannel where
  st : MState
  payload : Option (Nat × List Nat)
deriving DecidableEq

/-- A channel on which no request was ever issued. -/
def initAW : AWChannel :=
  { st := MState.idle, payload := none }

/-- `init_write`: issue a write request — assert valid and latch the
address and payload. -/
def issueAW (a : Nat) (bs : List Nat) (_c : AWChannel) : AWChannel :=
  { st := MState.reqSent, payload := some (a, bs) }

/-- Modelled from the spec: `clear()` "forcibly deasserts a channel's valid
and clears pending payload"; "IDLE is both initial and the state entered
after `clear()`". -/
def clearAW (_c : AWChannel) : AWChannel :=
  { st := MState.idle, payload := none }

/-- Modelled from the spec: one clock edge of the channel together with the
slave store: a sent request whose `ready` is sampled high is accepted and
its payload is committed to the store by the protocol engine; in every
other situation the store is untouched. -/
def sysStep (slaveAddress : Nat) (ready : Bool) (s : AWChannel × Mem) : AWChannel × Mem :=
  match s with
  | (c, m) =>
    match c.st, c.payload with
    | MState.reqSent, some (a, bs) =>
      if ready then
        match busWrite slaveAddress m a bs with
        | some m2 => ({ st := MState.reqAccepted, payload := some (a, bs) }, m2)
        | none => ({ st := MState.reqAccepted, payload := some (a, bs) }, m)
      else (c, m)
    | _, _ => (c, m)

/-- The channel/store pair after `n` clock edges. -/
def sysRun (slaveAddress : Nat) (ready : Nat → Bool) (s : AWChannel × Mem) : Nat → AWChannel × Mem
  | 0 => s
  | n + 1 => sysStep slaveAddress (ready n) (sysRun slaveAddress ready s n)

lemma sysRun_stalled (sa : Nat) (ready : Nat → Bool) (a : Nat) (bs : List Nat) (m : Mem) :
    ∀ n, (∀ k, k < n → ready k = false) →
      sysRun sa ready (issueAW a bs initAW, m) n = (issueAW a bs initAW, m) := by
  intro n
  induction n with
  | zero => intro _; rfl
  | succ j ihj =>
    intro h
    have hj := ihj (fun k hk => h k (Nat.lt_succ_of_lt hk))
    have hr : ready j = false := h j (Nat.lt_succ_self j)
    show sysStep sa (ready j) (sysRun sa ready (issueAW a bs initAW, m) j)
        = (issueAW a bs initAW, m)
    rw [hj, hr]
    rfl

/-- **C6.** If a pending write issued by `init_write` is abandoned via
`clear()` on the address channel before it was accepted (no edge sampled
`ready` high), then no partial or stale data from the transaction reaches
the slave store — the store is exactly as before the request — and the
channel returns to the IDLE state with no pending payload, indistinguishable
from a channel on which no request was ever issued. -/
theorem clear_before_accept (slaveAddress : Nat) (ready : Nat → Bool)
    (a : Nat) (bs : List Nat) (m : Mem) (n : Nat)
    (h : ∀ k, k < n → ready k = false) :
    clearAW (sysRun slaveAddress ready (issueAW a bs initAW, m) n).1 = initAW ∧
      (sysRun slaveAddress ready (issueAW a bs initAW, m) n).2 = m := by
  rw [sysRun_stalled slaveAddress ready a bs m n h]
  exact ⟨rfl, rfl⟩

/-- Witness for C6: a request for a 2-byte write at address 5, stalled for
three edges and then cleared, leaves an 8-byte store untouched and the
channel back at the never-issued state. -/
theorem clear_before_accept_witness :
    clearAW (sysRun 0 (fun _ => false) (issueAW 5 [1, 2] initAW, mkRam 8) 3).1 = initAW ∧
      (sysRun 0 (fun _ => false) (issueAW 5 [1, 2] initAW, mkRam 8) 3).2 = mkRam 8 :=
  clear_before_accept 0 (fun _ => false) 5 [1, 2] (mkRam 8) 3 (fun _ _ => rfl)

end TbCocotb
